import Mathlib

/-!
Verification of the MockChain checkpoint/timeline state engine.

The development shallowly embeds `packages/core/src/store.ts` and
`packages/core/src/storage.ts` (serialization) of the mockchain repository.
JavaScript `Map` objects (string-keyed, insertion ordered, unique keys) are
modelled as association lists together with the `Map` operations `get`,
`has`, `set`, `delete` and the `new Map(entries)` constructor; identifier
generation (`generateId`) and `Date.now()` are modelled by explicit
parameters, with freshness of generated identifiers recorded as a side
condition of the step relation.  Thrown errors are modelled with `Except`.
-/

namespace MockChain

/-- Model of a string-keyed JavaScript `Map` as an insertion-ordered list of
key/value entries (unique keys hold for every map built by the store). -/
abbrev EntryList (α : Type) : Type := List (String × α)

/-- Model of `Map.prototype.get`. -/
def mget {α : Type} : EntryList α → String → Option α
  | [], _ => none
  | p :: m, k => if p.1 = k then some p.2 else mget m k

/-- Model of `Map.prototype.has`. -/
def mhas {α : Type} (m : EntryList α) (k : String) : Bool :=
  (mget m k).isSome

/-- Model of `Map.prototype.set`: replace the value in place when the key is
present, otherwise append the new entry at the end. -/
def mset {α : Type} : EntryList α → String → α → EntryList α
  | [], k, v => [(k, v)]
  | p :: m, k, v => if p.1 = k then (k, v) :: m else p :: mset m k v

/-- Model of `Map.prototype.delete` (ignoring the returned boolean). -/
def mdel {α : Type} : EntryList α → String → EntryList α
  | [], _ => []
  | p :: m, k => if p.1 = k then mdel m k else p :: mdel m k

/-- Keys of a map, in entry order. -/
def mkeys {α : Type} (m : EntryList α) : List String :=
  m.map (·.1)

/-- Model of the `new Map(entries)` constructor: insert the entries in order
into an empty map. -/
def mofEntries {α : Type} (l : EntryList α) : EntryList α :=
  l.foldl (fun acc p => mset acc p.1 p.2) []

/-- Data model of `CapturedRequest` (types.ts).  The JSON-safe `body` is
modelled by its serialized text. -/
structure CapturedRequest where
  id : String
  method : String
  url : String
  headers : List (String × String)
  body : Option String
  timestamp : Nat
  deriving Repr, DecidableEq

/-- Data model of `CapturedResponse` (types.ts). -/
structure CapturedResponse where
  status : Nat
  headers : List (String × String)
  body : Option String
  responseTime : Nat
  deriving Repr, DecidableEq

/-- Data model of `CapturedPair` (types.ts). -/
structure CapturedPair where
  request : CapturedRequest
  response : CapturedResponse
  deriving Repr, DecidableEq

/-- Data model of `Timeline` (types.ts). -/
structure Timeline where
  id : String
  name : String
  parentId : Option String
  branchedFromCheckpointId : Option String
  createdAt : Nat
  deriving Repr, DecidableEq

/-- Data model of `Checkpoint` (types.ts). -/
structure Checkpoint where
  id : String
  name : String
  timelineId : String
  captures : List CapturedPair
  createdAt : Nat
  description : Option String
  deriving Repr, DecidableEq

/-- Data model of `MockChainState` (types.ts). -/
structure MockChainState where
  currentTimelineId : String
  timelines : EntryList Timeline
  checkpoints : EntryList Checkpoint
  currentCaptures : List CapturedPair
  deriving Repr, DecidableEq

/-- Data model of `CheckpointOptions` (types.ts). -/
structure CheckpointOptions where
  name : String
  description : Option String
  deriving Repr, DecidableEq

/-- Data model of `BranchOptions` (types.ts). -/
structure BranchOptions where
  name : String
  fromCheckpointId : Option String
  deriving Repr, DecidableEq

/-- Errors thrown by the store operations (store.ts throws `Error` values
with distinguishable messages carrying the offending identifier). -/
inductive StoreError where
  | checkpointNotFound (id : String)
  | timelineNotFound (id : String)
  | cannotDeleteMain
  deriving Repr, DecidableEq

/-- Constant `MAIN_TIMELINE_ID` of store.ts. -/
def MAIN_TIMELINE_ID : String := "main"

/-- Translation of `createInitialState` (store.ts line 14); `Date.now()` is
passed in as `now`. -/
def createInitialState (now : Nat) : MockChainState :=
  let mainTimeline : Timeline :=
    { id := MAIN_TIMELINE_ID
      name := "Main"
      parentId := none
      branchedFromCheckpointId := none
      createdAt := now }
  { currentTimelineId := MAIN_TIMELINE_ID
    timelines := [(MAIN_TIMELINE_ID, mainTimeline)]
    checkpoints := []
    currentCaptures := [] }

namespace Store

/-- Translation of `capture` (store.ts line 60): append the pair to the live
buffer. -/
def capture (s : MockChainState) (pair : CapturedPair) : MockChainState :=
  { s with currentCaptures := s.currentCaptures ++ [pair] }

/-- Translation of `clearCaptures` (store.ts line 67). -/
def clearCaptures (s : MockChainState) : MockChainState :=
  { s with currentCaptures := [] }

/-- Translation of `createCheckpoint` (store.ts line 74): `generateId()` and
`Date.now()` are passed in as `newId` and `now`.  The array copy
`[...state.currentCaptures]` is value equality in this pure model.  Returns
the updated state together with the created checkpoint. -/
def createCheckpoint (s : MockChainState) (options : CheckpointOptions)
    (newId : String) (now : Nat) : MockChainState × Checkpoint :=
  let checkpoint : Checkpoint :=
    { id := newId
      name := options.name
      timelineId := s.currentTimelineId
      captures := s.currentCaptures
      createdAt := now
      description := options.description }
  ({ s with checkpoints := mset s.checkpoints checkpoint.id checkpoint }, checkpoint)

/-- Translation of `restoreCheckpoint` (store.ts line 96). -/
def restoreCheckpoint (s : MockChainState) (checkpointId : String) :
    Except StoreError MockChainState :=
  match mget s.checkpoints checkpointId with
  | none => .error (.checkpointNotFound checkpointId)
  | some checkpoint =>
      .ok { s with
              currentTimelineId := checkpoint.timelineId
              currentCaptures := checkpoint.captures }

/-- Translation of `deleteCheckpoint` (store.ts line 111): idempotent, no
error when the id is absent. -/
def deleteCheckpoint (s : MockChainState) (checkpointId : String) : MockChainState :=
  { s with checkpoints := mdel s.checkpoints checkpointId }

/-- Translation of `getCheckpoint` (store.ts line 122). -/
def getCheckpoint (s : MockChainState) (checkpointId : String) : Option Checkpoint :=
  mget s.checkpoints checkpointId

/-- Capture seeding of `createBranch` (store.ts lines 141 to 148).  The
source guards with `if (options.fromCheckpointId)`, a JavaScript truthiness
test: the checkpoint lookup runs only when the field is present AND not the
empty string. -/
def branchSeed (s : MockChainState) (options : BranchOptions) :
    Except StoreError (List CapturedPair) :=
  match options.fromCheckpointId with
  | none => .ok s.currentCaptures
  | some cid =>
      if cid = "" then .ok s.currentCaptures
      else
        match mget s.checkpoints cid with
        | none => .error (.checkpointNotFound cid)
        | some checkpoint => .ok checkpoint.captures

/-- Translation of `createBranch` (store.ts line 137): `generateId()` and
`Date.now()` are passed in as `newId` and `now`.  Note that
`branchedFromCheckpointId` is `options.fromCheckpointId ?? null`, which
keeps an empty string as is. -/
def createBranch (s : MockChainState) (options : BranchOptions)
    (newId : String) (now : Nat) : Except StoreError (MockChainState × Timeline) :=
  (branchSeed s options).map fun captures =>
    let timeline : Timeline :=
      { id := newId
        name := options.name
        parentId := some s.currentTimelineId
        branchedFromCheckpointId := options.fromCheckpointId
        createdAt := now }
    ({ s with
         timelines := mset s.timelines timeline.id timeline
         currentTimelineId := timeline.id
         currentCaptures := captures }, timeline)

/-- Translation of `switchTimeline` (store.ts line 171): switching clears the
live buffer. -/
def switchTimeline (s : MockChainState) (timelineId : String) :
    Except StoreError MockChainState :=
  if mhas s.timelines timelineId then
    .ok { s with currentTimelineId := timelineId, currentCaptures := [] }
  else
    .error (.timelineNotFound timelineId)

/-- Checkpoint cascade of `deleteTimeline` (store.ts lines 202 to 207): walk
the checkpoint entries and delete from the copy every key whose checkpoint
belongs to the deleted timeline. -/
def purgeCheckpoints (checkpoints : EntryList Checkpoint) (timelineId : String) :
    EntryList Checkpoint :=
  checkpoints.foldl
    (fun acc p => if p.2.timelineId = timelineId then mdel acc p.1 else acc)
    checkpoints

/-- Translation of `deleteTimeline` (store.ts line 187). -/
def deleteTimeline (s : MockChainState) (timelineId : String) :
    Except StoreError MockChainState :=
  if timelineId = MAIN_TIMELINE_ID then
    .error .cannotDeleteMain
  else if !(mhas s.timelines timelineId) then
    .error (.timelineNotFound timelineId)
  else
    let newTimelines := mdel s.timelines timelineId
    let newCheckpoints := purgeCheckpoints s.checkpoints timelineId
    let newCurrentTimelineId :=
      if s.currentTimelineId = timelineId then MAIN_TIMELINE_ID else s.currentTimelineId
    .ok { s with
            timelines := newTimelines
            checkpoints := newCheckpoints
            currentTimelineId := newCurrentTimelineId
            currentCaptures :=
              if newCurrentTimelineId ≠ s.currentTimelineId then [] else s.currentCaptures }

/-- Translation of `getCurrentTimeline` (store.ts line 222): `none` models
the fatal internal-invariant throw. -/
def getCurrentTimeline (s : MockChainState) : Option Timeline :=
  mget s.timelines s.currentTimelineId

/-- Translation of `listTimelines` (store.ts line 231). -/
def listTimelines (s : MockChainState) : List Timeline :=
  s.timelines.map (·.2)

/-- Translation of `getCaptures` (store.ts line 235). -/
def getCaptures (s : MockChainState) : List CapturedPair :=
  s.currentCaptures

end Store

/-- Keys scheduled for removal by the checkpoint cascade of `deleteTimeline`. -/
def purgedKeys (checkpoints : EntryList Checkpoint) (timelineId : String) : List String :=
  (checkpoints.filter (fun p => p.2.timelineId == timelineId)).map (·.1)

/-- One observable mutation of the store.  Constructors carry the success
condition of the corresponding operation; the freshness side conditions on
`newId` model the collision-resistant `generateId()` of utils.ts. -/
inductive Step : MockChainState → MockChainState → Prop where
  | capture (s : MockChainState) (pair : CapturedPair) :
      Step s (Store.capture s pair)
  | clearCaptures (s : MockChainState) :
      Step s (Store.clearCaptures s)
  | createCheckpoint (s : MockChainState) (options : CheckpointOptions)
      (newId : String) (now : Nat)
      (hfresh : mhas s.checkpoints newId = false) :
      Step s (Store.createCheckpoint s options newId now).1
  | restoreCheckpoint (s : MockChainState) (checkpointId : String)
      (s2 : MockChainState)
      (h : Store.restoreCheckpoint s checkpointId = .ok s2) :
      Step s s2
  | deleteCheckpoint (s : MockChainState) (checkpointId : String) :
      Step s (Store.deleteCheckpoint s checkpointId)
  | createBranch (s : MockChainState) (options : BranchOptions)
      (newId : String) (now : Nat) (s2 : MockChainState) (t : Timeline)
      (hfresh : mhas s.timelines newId = false)
      (h : Store.createBranch s options newId now = .ok (s2, t)) :
      Step s s2
  | switchTimeline (s : MockChainState) (timelineId : String)
      (s2 : MockChainState)
      (h : Store.switchTimeline s timelineId = .ok s2) :
      Step s s2
  | deleteTimeline (s : MockChainState) (timelineId : String)
      (s2 : MockChainState)
      (h : Store.deleteTimeline s timelineId = .ok s2) :
      Step s s2

/-- States reachable from a fresh store by any sequence of store
operations. -/
def Reachable (s : MockChainState) : Prop :=
  ∃ now, Relation.ReflTransGen Step (createInitialState now) s

/-- The internal well-formedness invariant of the store state. -/
structure StoreInv (s : MockChainState) : Prop where
  tlNodup : (mkeys s.timelines).Nodup
  cpNodup : (mkeys s.checkpoints).Nodup
  mainMem : mhas s.timelines MAIN_TIMELINE_ID = true
  curMem : mhas s.timelines s.currentTimelineId = true
  tlKeyId : ∀ p ∈ s.timelines, p.2.id = p.1
  cpKeyId : ∀ p ∈ s.checkpoints, p.2.id = p.1
  rootIff : ∀ p ∈ s.timelines, (p.2.parentId = none ↔ p.1 = MAIN_TIMELINE_ID)
  cpTlMem : ∀ p ∈ s.checkpoints, mhas s.timelines p.2.timelineId = true

/-- Data model of `SerializedMockChainState` (storage.ts): maps are replaced
by their ordered entry lists. -/
structure SerializedMockChainState where
  currentTimelineId : String
  timelines : EntryList Timeline
  checkpoints : EntryList Checkpoint
  currentCaptures : List CapturedPair
  deriving Repr, DecidableEq

/-- Translation of `serializeState` (storage.ts line 301):
`Array.from(map.entries())` is the entry list itself in this model. -/
def serializeState (state : MockChainState) : SerializedMockChainState :=
  { currentTimelineId := state.currentTimelineId
    timelines := state.timelines
    checkpoints := state.checkpoints
    currentCaptures := state.currentCaptures }

/-- Translation of `deserializeState` (storage.ts line 313): the pair lists
are rebuilt into maps with `new Map(list)`. -/
def deserializeState (serialized : SerializedMockChainState) : MockChainState :=
  { currentTimelineId := serialized.currentTimelineId
    timelines := mofEntries serialized.timelines
    checkpoints := mofEntries serialized.checkpoints
    currentCaptures := serialized.currentCaptures }

/-- Modelled from the spec: the version constant `EXPORT_VERSION` of the
export document.  The export/import implementation file is not under src/
(only `export-import.test.ts` and the re-exports in index.ts are), so the
export document and its operations are modelled from section 4.3 of the
specification. -/
def EXPORT_VERSION : Nat := 1

/-- Modelled from the spec: the export document
`{version, exportedAt, timelines, checkpoints, captures}` produced by
`exportState`. -/
structure ExportData where
  version : Nat
  exportedAt : String
  timelines : List Timeline
  checkpoints : List Checkpoint
  captures : List CapturedPair
  deriving Repr, DecidableEq

/-- Modelled from the spec: `exportState` with the `timeline` option
omitted — include all timelines, all checkpoints and the live buffer of the
active timeline.  The ISO-8601 `exportedAt` string is passed in. -/
def exportState (state : MockChainState) (exportedAt : String) : ExportData :=
  { version := EXPORT_VERSION
    exportedAt := exportedAt
    timelines := state.timelines.map (·.2)
    checkpoints := state.checkpoints.map (·.2)
    captures := state.currentCaptures }

/-- Modelled from the spec: the main timeline synthesized by a replace
strategy whose imported document does not include it. -/
def synthesizedMain (now : Nat) : Timeline :=
  { id := MAIN_TIMELINE_ID
    name := "Main"
    parentId := none
    branchedFromCheckpointId := none
    createdAt := now }

/-- Modelled from the spec: `importState` with the `replace` strategy —
discard all existing timelines/checkpoints/captures, install the imported
ones keyed by their ids, guarantee the main timeline exists (synthesizing
it if absent), set the current timeline to the first imported timeline if
any (else main), and set the live buffer to the imported captures.  In this
typed embedding the schema validation (version present, collections
array-typed, entries carrying their required fields) holds by construction,
so the operation is total. -/
def importStateReplace (_state : MockChainState) (data : ExportData)
    (now : Nat) : MockChainState :=
  let timelines := mofEntries (data.timelines.map (fun t => (t.id, t)))
  let timelines :=
    if mhas timelines MAIN_TIMELINE_ID then timelines
    else mset timelines MAIN_TIMELINE_ID (synthesizedMain now)
  { currentTimelineId :=
      match data.timelines with
      | [] => MAIN_TIMELINE_ID
      | t :: _ => t.id
    timelines := timelines
    checkpoints := mofEntries (data.checkpoints.map (fun c => (c.id, c)))
    currentCaptures := data.captures }

/-- One store operation among those that mutate the live capture buffer
(capture, clearCaptures, restoreCheckpoint, createBranch, switchTimeline),
exactly the operations quantified over by the checkpoint-immutability
claim. -/
inductive BufStep : MockChainState → MockChainState → Prop where
  | capture (s : MockChainState) (pair : CapturedPair) :
      BufStep s (Store.capture s pair)
  | clearCaptures (s : MockChainState) :
      BufStep s (Store.clearCaptures s)
  | restoreCheckpoint (s : MockChainState) (checkpointId : String)
      (s2 : MockChainState)
      (h : Store.restoreCheckpoint s checkpointId = .ok s2) :
      BufStep s s2
  | createBranch (s : MockChainState) (options : BranchOptions)
      (newId : String) (now : Nat) (s2 : MockChainState) (t : Timeline)
      (h : Store.createBranch s options newId now = .ok (s2, t)) :
      BufStep s s2
  | switchTimeline (s : MockChainState) (timelineId : String)
      (s2 : MockChainState)
      (h : Store.switchTimeline s timelineId = .ok s2) :
      BufStep s s2

/-- Concrete captured pair used by the evaluation witnesses. -/
def samplePair : CapturedPair :=
  { request :=
      { id := "r1", method := "GET", url := "/api/test", headers := [],
        body := none, timestamp := 0 }
    response :=
      { status := 200, headers := [], body := none, responseTime := 50 } }

/-- Concrete main timeline used by the evaluation witnesses. -/
def tlMain0 : Timeline :=
  { id := "main", name := "Main", parentId := none,
    branchedFromCheckpointId := none, createdAt := 0 }

/-- Concrete branch of main used by the evaluation witnesses. -/
def tlBranch1 : Timeline :=
  { id := "t1", name := "b1", parentId := some "main",
    branchedFromCheckpointId := none, createdAt := 1 }

/-- Concrete branch of `tlBranch1` used by the evaluation witnesses. -/
def tlBranch2 : Timeline :=
  { id := "t2", name := "b2", parentId := some "t1",
    branchedFromCheckpointId := none, createdAt := 2 }

/-- Concrete checkpoint on main used by the evaluation witnesses. -/
def cpMain : Checkpoint :=
  { id := "c0", name := "cp0", timelineId := "main", captures := [],
    createdAt := 0, description := none }

/-- Concrete checkpoint on `tlBranch1` used by the evaluation witnesses. -/
def cpT1 : Checkpoint :=
  { id := "c1", name := "cp1", timelineId := "t1",
    captures := [samplePair], createdAt := 1, description := none }

/-- Concrete store state (current timeline `t1`, three timelines, two
checkpoints) used by the evaluation witnesses. -/
def sampleState : MockChainState :=
  { currentTimelineId := "t1"
    timelines := [("main", tlMain0), ("t1", tlBranch1), ("t2", tlBranch2)]
    checkpoints := [("c0", cpMain), ("c1", cpT1)]
    currentCaptures := [samplePair] }

/-- Concrete state expected after `deleteTimeline sampleState "t1"`. -/
def sampleDeleted : MockChainState :=
  { currentTimelineId := "main"
    timelines := [("main", tlMain0), ("t2", tlBranch2)]
    checkpoints := [("c0", cpMain)]
    currentCaptures := [] }

/-- Concrete timeline expected from branching `sampleState` at checkpoint
`c1`. -/
def tlBranch3 : Timeline :=
  { id := "t3", name := "b3", parentId := some "t1",
    branchedFromCheckpointId := some "c1", createdAt := 3 }

/-- Concrete state expected after branching `sampleState` at checkpoint
`c1`. -/
def sampleBranched : MockChainState :=
  { currentTimelineId := "t3"
    timelines := [("main", tlMain0), ("t1", tlBranch1), ("t2", tlBranch2),
                  ("t3", tlBranch3)]
    checkpoints := [("c0", cpMain), ("c1", cpT1)]
    currentCaptures := [samplePair] }

theorem mget_mset_self {α : Type} (m : EntryList α) (k : String) (v : α) :
    mget (mset m k v) k = some v := by
  induction m with
  | nil => simp [mset, mget]
  | cons p m ih =>
      by_cases h : p.1 = k
      · simp [mset, h, mget]
      · simp [mset, h, mget, ih]

theorem mget_mset_ne {α : Type} {m : EntryList α} {k k' : String} {v : α}
    (h : k' ≠ k) : mget (mset m k v) k' = mget m k' := by
  induction m with
  | nil => simp [mset, mget, Ne.symm h]
  | cons p m ih =>
      by_cases hp : p.1 = k
      · have hp2 : ¬p.1 = k' := by rw [hp]; exact Ne.symm h
        simp [mset, hp, mget, Ne.symm h, hp2]
      · by_cases hp2 : p.1 = k'
        · simp [mset, hp, mget, hp2, h]
        · simp [mset, hp, mget, hp2, ih, h]

theorem mhas_mset_self {α : Type} (m : EntryList α) (k : String) (v : α) :
    mhas (mset m k v) k = true := by
  simp [mhas, mget_mset_self]

theorem mhas_mset_of_mhas {α : Type} {m : EntryList α} {k k' : String} {v : α}
    (h : mhas m k' = true) : mhas (mset m k v) k' = true := by
  by_cases hk : k' = k
  · subst hk; exact mhas_mset_self m k' v
  · simpa [mhas, mget_mset_ne hk] using h

theorem mget_mdel_self {α : Type} (m : EntryList α) (k : String) :
    mget (mdel m k) k = none := by
  induction m with
  | nil => simp [mdel, mget]
  | cons p m ih =>
      by_cases h : p.1 = k
      · simp [mdel, h, ih]
      · simp [mdel, h, mget, ih]

theorem mget_mdel_ne {α : Type} {m : EntryList α} {k k' : String}
    (h : k' ≠ k) : mget (mdel m k) k' = mget m k' := by
  induction m with
  | nil => simp [mdel]
  | cons p m ih =>
      by_cases hp : p.1 = k
      · have hp2 : ¬p.1 = k' := by rw [hp]; exact Ne.symm h
        simp [mdel, hp, mget, hp2, ih, Ne.symm h]
      · by_cases hp2 : p.1 = k'
        · simp [mdel, hp, mget, hp2, h]
        · simp [mdel, hp, mget, hp2, ih, h]

theorem mhas_mdel_ne {α : Type} {m : EntryList α} {k k' : String}
    (h : k' ≠ k) : mhas (mdel m k) k' = mhas m k' := by
  simp [mhas, mget_mdel_ne h]

theorem mem_mset {α : Type} {m : EntryList α} {k : String} {v : α}
    {p : String × α} (h : p ∈ mset m k v) : p = (k, v) ∨ p ∈ m := by
  induction m with
  | nil => simpa [mset] using h
  | cons q m ih =>
      by_cases hq : q.1 = k
      · simp only [mset, hq, if_pos rfl] at h
        rcases List.mem_cons.mp h with h | h
        · exact Or.inl h
        · exact Or.inr (List.mem_cons_of_mem q h)
      · simp only [mset, if_neg hq] at h
        rcases List.mem_cons.mp h with h | h
        · exact Or.inr (h ▸ List.mem_cons_self q m)
        · rcases ih h with h | h
          · exact Or.inl h
          · exact Or.inr (List.mem_cons_of_mem q h)

theorem mdel_eq_filter {α : Type} (m : EntryList α) (k : String) :
    mdel m k = m.filter (fun p => p.1 != k) := by
  induction m with
  | nil => rfl
  | cons p m ih =>
      by_cases h : p.1 = k
      · simp [mdel, h, ih, List.filter_cons]
      · simp [mdel, h, ih, List.filter_cons, bne, h]

theorem mem_mdel {α : Type} {m : EntryList α} {k : String} {p : String × α}
    (h : p ∈ mdel m k) : p ∈ m ∧ p.1 ≠ k := by
  rw [mdel_eq_filter] at h
  have := List.mem_filter.mp h
  exact ⟨this.1, by simpa [bne] using this.2⟩

theorem mkeys_mset {α : Type} (m : EntryList α) (k : String) (v : α) :
    mkeys (mset m k v) = if mhas m k then mkeys m else mkeys m ++ [k] := by
  induction m with
  | nil => simp [mset, mkeys, mhas, mget]
  | cons p m ih =>
      by_cases h : p.1 = k
      · simp [mset, h, mkeys, mhas, mget]
      · cases hmk : mget m k with
        | none =>
            simp [mset, h, mkeys, mhas, mget, hmk] at ih ⊢
            exact ih
        | some w =>
            simp [mset, h, mkeys, mhas, mget, hmk] at ih ⊢
            exact ih

theorem not_mem_mkeys {α : Type} {m : EntryList α} {k : String}
    (h : mhas m k = false) : k ∉ mkeys m := by
  induction m with
  | nil => simp [mkeys]
  | cons p m ih =>
      by_cases hp : p.1 = k
      · simp [mhas, mget, hp] at h
      · simp only [mhas, mget, if_neg hp] at h
        have h2 : k ∉ mkeys m := ih h
        simp only [mkeys, List.map_cons, List.mem_cons, not_or]
        refine ⟨fun he => hp he.symm, by simpa [mkeys] using h2⟩

theorem mhas_of_mem_mkeys {α : Type} {m : EntryList α} {k : String}
    (h : k ∈ mkeys m) : mhas m k = true := by
  by_cases h2 : mhas m k
  · exact h2
  · exact absurd h (not_mem_mkeys (by simpa using h2))

theorem nodup_mkeys_mset {α : Type} {m : EntryList α} (k : String) (v : α)
    (h : (mkeys m).Nodup) : (mkeys (mset m k v)).Nodup := by
  rw [mkeys_mset]
  by_cases h2 : mhas m k
  · simpa [h2] using h
  · simp only [h2, if_neg]
    simp [List.nodup_append, h, not_mem_mkeys (by simpa using h2)]

theorem nodup_mkeys_mdel {α : Type} {m : EntryList α} (k : String)
    (h : (mkeys m).Nodup) : (mkeys (mdel m k)).Nodup := by
  rw [mdel_eq_filter]
  have hsub : List.Sublist (m.filter (fun p => p.1 != k)) m := List.filter_sublist m
  have hsub2 := List.Sublist.map (fun p : String × α => p.1) hsub
  exact h.sublist (by simpa [mkeys] using hsub2)

theorem mget_mem {α : Type} {m : EntryList α} {k : String} {v : α}
    (h : mget m k = some v) : (k, v) ∈ m := by
  induction m with
  | nil => simp [mget] at h
  | cons p m ih =>
      by_cases hp : p.1 = k
      · simp only [mget, if_pos hp] at h
        have hpv : p = (k, v) := by
          cases p
          simp_all
        exact hpv ▸ List.mem_cons_self p m
      · simp only [mget, if_neg hp] at h
        exact List.mem_cons_of_mem p (ih h)

theorem mset_eq_append {α : Type} {m : EntryList α} {k : String} (v : α)
    (h : mhas m k = false) : mset m k v = m ++ [(k, v)] := by
  induction m with
  | nil => simp [mset]
  | cons p m ih =>
      by_cases hp : p.1 = k
      · simp [mhas, mget, hp] at h
      · simp only [mhas, mget, if_neg hp] at h
        simp [mset, hp, ih h]

theorem mget_append_of_isSome {α : Type} {m₁ : EntryList α} (m₂ : EntryList α)
    {k : String} {v : α} (h : mget m₁ k = some v) : mget (m₁ ++ m₂) k = some v := by
  induction m₁ with
  | nil => simp [mget] at h
  | cons p m ih =>
      by_cases hp : p.1 = k
      · simp only [mget, if_pos hp] at h
        simp [mget, hp, h]
      · simp only [mget, if_neg hp] at h
        simp [mget, hp, ih h]

theorem mget_append_of_none {α : Type} {m₁ : EntryList α} (m₂ : EntryList α)
    {k : String} (h : mget m₁ k = none) : mget (m₁ ++ m₂) k = mget m₂ k := by
  induction m₁ with
  | nil => simp
  | cons p m ih =>
      by_cases hp : p.1 = k
      · simp [mget, hp] at h
      · simp only [mget, if_neg hp] at h
        simp [mget, hp, ih h]

theorem entry_eq_of_nodup {α : Type} {m : EntryList α} {p q : String × α}
    (hn : (mkeys m).Nodup) (hp : p ∈ m) (hq : q ∈ m) (hk : p.1 = q.1) : p = q := by
  induction m with
  | nil => simp at hp
  | cons r m ih =>
      have hncons := List.nodup_cons.mp (show (r.1 :: mkeys m).Nodup from hn)
      have hn2 : r.1 ∉ mkeys m := hncons.1
      have hnm : (mkeys m).Nodup := hncons.2
      rcases List.mem_cons.mp hp with hp1 | hp1 <;>
        rcases List.mem_cons.mp hq with hq1 | hq1
      · exact hp1.trans hq1.symm
      · exfalso
        exact hn2 (by
          have : q.1 ∈ mkeys m := List.mem_map_of_mem (·.1) hq1
          rw [hp1] at hk
          exact hk ▸ this)
      · exfalso
        exact hn2 (by
          have : p.1 ∈ mkeys m := List.mem_map_of_mem (·.1) hp1
          rw [hq1] at hk
          exact hk ▸ this)
      · exact ih hnm hp1 hq1

theorem mofEntries_eq_self {α : Type} {l : EntryList α}
    (h : (mkeys l).Nodup) : mofEntries l = l := by
  suffices haux : ∀ (l acc : EntryList α), (mkeys l).Nodup →
      (∀ p ∈ l, mhas acc p.1 = false) →
      l.foldl (fun a p => mset a p.1 p.2) acc = acc ++ l by
    simpa [mofEntries] using haux l [] h (fun p _ => by simp [mhas, mget])
  intro l
  induction l with
  | nil => intro acc _ _; simp
  | cons p t ih =>
      intro acc hn hfresh
      have hp : mhas acc p.1 = false := hfresh p (List.mem_cons_self p t)
      have hncons := List.nodup_cons.mp (show (p.1 :: mkeys t).Nodup from hn)
      have hn2 : p.1 ∉ mkeys t := hncons.1
      have hnt : (mkeys t).Nodup := hncons.2
      have hstep : mset acc p.1 p.2 = acc ++ [p] := mset_eq_append p.2 hp
      have hfresh2 : ∀ q ∈ t, mhas (acc ++ [p]) q.1 = false := by
        intro q hq
        have h1 : mget acc q.1 = none := by
          have := hfresh q (List.mem_cons_of_mem p hq)
          simpa [mhas, Option.isSome] using (by
            cases hmm : mget acc q.1 with
            | none => rfl
            | some v => simp [mhas, hmm] at this)
        have hne : p.1 ≠ q.1 := fun he =>
          hn2 (he ▸ List.mem_map_of_mem (·.1) hq)
        rw [mhas, mget_append_of_none [p] h1]
        simp [mget, hne]
      calc (p :: t).foldl (fun a q => mset a q.1 q.2) acc
          = t.foldl (fun a q => mset a q.1 q.2) (acc ++ [p]) := by
            simp [List.foldl_cons, hstep]
        _ = (acc ++ [p]) ++ t := ih (acc ++ [p]) hnt hfresh2
        _ = acc ++ p :: t := by simp

theorem purge_foldl_eq (tid : String) (l acc : EntryList Checkpoint) :
    l.foldl (fun a p => if p.2.timelineId = tid then mdel a p.1 else a) acc
      = acc.filter (fun q => !((purgedKeys l tid).contains q.1)) := by
  induction l generalizing acc with
  | nil => simp [purgedKeys]
  | cons p t ih =>
      by_cases h : p.2.timelineId = tid
      · have hb : (p.2.timelineId == tid) = true := by simpa using h
        have hkeys : purgedKeys (p :: t) tid = p.1 :: purgedKeys t tid := by
          simp [purgedKeys, List.filter_cons, hb]
        rw [List.foldl_cons, if_pos h, ih (mdel acc p.1), mdel_eq_filter,
          List.filter_filter, hkeys]
        apply List.filter_congr
        intro q _
        rw [Bool.and_comm]
        cases hqp : decide (q.1 = p.1) with
        | true => simp_all
        | false => simp_all
      · have hb : (p.2.timelineId == tid) = false := by simpa using h
        have hkeys : purgedKeys (p :: t) tid = purgedKeys t tid := by
          simp [purgedKeys, List.filter_cons, hb]
        simp only [List.foldl_cons, if_neg h, ih, hkeys]

/-- With unique keys (the invariant of every real `Map`), the delete loop of
`deleteTimeline` equals a filter on the checkpoint value. -/
theorem purgeCheckpoints_eq_filter (cps : EntryList Checkpoint) (tid : String)
    (h : (mkeys cps).Nodup) :
    Store.purgeCheckpoints cps tid = cps.filter (fun p => p.2.timelineId != tid) := by
  unfold Store.purgeCheckpoints
  rw [purge_foldl_eq]
  apply List.filter_congr
  intro q hq
  by_cases hqt : q.2.timelineId = tid
  · have hmem : q.1 ∈ purgedKeys cps tid :=
      List.mem_map_of_mem (·.1) (List.mem_filter.mpr ⟨hq, by simpa using hqt⟩)
    simp [List.contains, hmem, bne, hqt]
  · have hnot : q.1 ∉ purgedKeys cps tid := by
      intro hmem
      rcases List.mem_map.mp hmem with ⟨r, hr, hre⟩
      have hrf := List.mem_filter.mp hr
      have hrq : r = q := entry_eq_of_nodup h hrf.1 hq hre
      rw [hrq] at hrf
      exact hqt (by simpa using hrf.2)
    simp [List.contains, hnot, bne, hqt]

theorem nodup_mkeys_filter {α : Type} {m : EntryList α} (f : String × α → Bool)
    (h : (mkeys m).Nodup) : (mkeys (m.filter f)).Nodup := by
  have hsub : List.Sublist (m.filter f) m := List.filter_sublist m
  have hsub2 := List.Sublist.map (fun p : String × α => p.1) hsub
  exact h.sublist (by simpa [mkeys] using hsub2)

theorem exceptMap_ok {ε α β : Type} {f : α → β} {e : Except ε α} {b : β}
    (h : e.map f = .ok b) : ∃ a, e = .ok a ∧ f a = b := by
  cases e with
  | error err => simp [Except.map] at h
  | ok a => exact ⟨a, rfl, by simpa [Except.map] using h⟩

/-- Success shape of `createBranch`: the seeding succeeded and the result is
the branched state together with the created timeline. -/
theorem createBranch_ok {s : MockChainState} {options : BranchOptions}
    {newId : String} {now : Nat} {s2 : MockChainState} {t : Timeline}
    (h : Store.createBranch s options newId now = .ok (s2, t)) :
    ∃ captures, Store.branchSeed s options = .ok captures ∧
      t = { id := newId, name := options.name,
            parentId := some s.currentTimelineId,
            branchedFromCheckpointId := options.fromCheckpointId,
            createdAt := now } ∧
      s2 = { s with
               timelines := mset s.timelines newId t
               currentTimelineId := newId
               currentCaptures := captures } := by
  rcases exceptMap_ok h with ⟨captures, hseed, happ⟩
  refine ⟨captures, hseed, ?_, ?_⟩
  · have := congrArg Prod.snd happ
    simpa using this.symm
  · have ht := congrArg Prod.snd happ
    have hs := congrArg Prod.fst happ
    simp only at ht hs
    rw [← hs, ← ht]

/-- Success shape of `deleteTimeline`. -/
theorem deleteTimeline_ok {s : MockChainState} {timelineId : String}
    {s2 : MockChainState}
    (h : Store.deleteTimeline s timelineId = .ok s2) :
    timelineId ≠ MAIN_TIMELINE_ID ∧ mhas s.timelines timelineId = true ∧
    s2 = { s with
             timelines := mdel s.timelines timelineId
             checkpoints := Store.purgeCheckpoints s.checkpoints timelineId
             currentTimelineId :=
               if s.currentTimelineId = timelineId then MAIN_TIMELINE_ID
               else s.currentTimelineId
             currentCaptures :=
               if s.currentTimelineId = timelineId then []
               else s.currentCaptures } := by
  by_cases h1 : timelineId = MAIN_TIMELINE_ID
  · simp [Store.deleteTimeline, h1] at h
  · by_cases h2 : mhas s.timelines timelineId
    · refine ⟨h1, h2, ?_⟩
      by_cases h3 : s.currentTimelineId = timelineId
      · have h4 : ¬(MAIN_TIMELINE_ID = timelineId) := fun he => h1 he.symm
        have h5 : MAIN_TIMELINE_ID ≠ s.currentTimelineId := by
          rw [h3]; exact h4
        simp [Store.deleteTimeline, h1, h2, h3, h4, h5] at h
        simp only [if_pos h3]
        exact h.symm
      · simp [Store.deleteTimeline, h1, h2, h3] at h
        simp only [if_neg h3]
        exact h.symm
    · simp [Store.deleteTimeline, h1, h2] at h

/-- Success shape of `switchTimeline`. -/
theorem switchTimeline_ok {s : MockChainState} {timelineId : String}
    {s2 : MockChainState}
    (h : Store.switchTimeline s timelineId = .ok s2) :
    mhas s.timelines timelineId = true ∧
    s2 = { s with currentTimelineId := timelineId, currentCaptures := [] } := by
  by_cases h2 : mhas s.timelines timelineId
  · refine ⟨h2, ?_⟩
    simp [Store.switchTimeline, h2] at h
    exact h.symm
  · simp [Store.switchTimeline, h2] at h

/-- Success shape of `restoreCheckpoint`. -/
theorem restoreCheckpoint_ok {s : MockChainState} {checkpointId : String}
    {s2 : MockChainState}
    (h : Store.restoreCheckpoint s checkpointId = .ok s2) :
    ∃ checkpoint, mget s.checkpoints checkpointId = some checkpoint ∧
      s2 = { s with
               currentTimelineId := checkpoint.timelineId
               currentCaptures := checkpoint.captures } := by
  cases hcp : mget s.checkpoints checkpointId with
  | none => simp [Store.restoreCheckpoint, hcp] at h
  | some checkpoint =>
      refine ⟨checkpoint, rfl, ?_⟩
      simp [Store.restoreCheckpoint, hcp] at h
      exact h.symm

/-- Every store operation preserves the internal invariant. -/
theorem step_inv {s s2 : MockChainState} (h : Step s s2) (inv : StoreInv s) :
    StoreInv s2 := by
  cases h with
  | capture pair =>
      exact ⟨inv.tlNodup, inv.cpNodup, inv.mainMem, inv.curMem, inv.tlKeyId,
        inv.cpKeyId, inv.rootIff, inv.cpTlMem⟩
  | clearCaptures =>
      exact ⟨inv.tlNodup, inv.cpNodup, inv.mainMem, inv.curMem, inv.tlKeyId,
        inv.cpKeyId, inv.rootIff, inv.cpTlMem⟩
  | createCheckpoint options newId now hfresh =>
      refine ⟨inv.tlNodup, ?_, inv.mainMem, inv.curMem, inv.tlKeyId, ?_,
        inv.rootIff, ?_⟩
      · exact nodup_mkeys_mset newId _ inv.cpNodup
      · intro p hp
        rcases mem_mset hp with hp | hp
        · rw [hp]
        · exact inv.cpKeyId p hp
      · intro p hp
        rcases mem_mset hp with hp | hp
        · rw [hp]
          exact inv.curMem
        · exact inv.cpTlMem p hp
  | restoreCheckpoint checkpointId st2 h =>
      rcases restoreCheckpoint_ok h with ⟨checkpoint, hcp, hs2⟩
      subst hs2
      refine ⟨inv.tlNodup, inv.cpNodup, inv.mainMem, ?_, inv.tlKeyId,
        inv.cpKeyId, inv.rootIff, inv.cpTlMem⟩
      exact inv.cpTlMem (checkpointId, checkpoint) (mget_mem hcp)
  | deleteCheckpoint checkpointId =>
      refine ⟨inv.tlNodup, nodup_mkeys_mdel checkpointId inv.cpNodup,
        inv.mainMem, inv.curMem, inv.tlKeyId, ?_, inv.rootIff, ?_⟩
      · intro p hp
        exact inv.cpKeyId p (mem_mdel hp).1
      · intro p hp
        exact inv.cpTlMem p (mem_mdel hp).1
  | createBranch options newId now st2 t hfresh h =>
      rcases createBranch_ok h with ⟨captures, hseed, ht, hs2⟩
      subst hs2
      have hnm : newId ≠ MAIN_TIMELINE_ID := by
        intro he
        rw [he] at hfresh
        rw [inv.mainMem] at hfresh
        exact Bool.noConfusion hfresh
      refine ⟨nodup_mkeys_mset newId t inv.tlNodup, inv.cpNodup,
        mhas_mset_of_mhas inv.mainMem, mhas_mset_self _ newId t, ?_,
        inv.cpKeyId, ?_, ?_⟩
      · intro p hp
        rcases mem_mset hp with hp | hp
        · rw [hp, ht]
        · exact inv.tlKeyId p hp
      · intro p hp
        rcases mem_mset hp with hp | hp
        · rw [hp]
          constructor
          · intro hnone
            rw [ht] at hnone
            exact absurd hnone (by simp)
          · intro hmain
            exact absurd hmain hnm
        · exact inv.rootIff p hp
      · intro p hp
        exact mhas_mset_of_mhas (inv.cpTlMem p hp)
  | switchTimeline timelineId st2 h =>
      rcases switchTimeline_ok h with ⟨hhas, hs2⟩
      subst hs2
      exact ⟨inv.tlNodup, inv.cpNodup, inv.mainMem, hhas, inv.tlKeyId,
        inv.cpKeyId, inv.rootIff, inv.cpTlMem⟩
  | deleteTimeline timelineId st2 h =>
      rcases deleteTimeline_ok h with ⟨hne, hhas, hs2⟩
      subst hs2
      have hpf := purgeCheckpoints_eq_filter s.checkpoints timelineId inv.cpNodup
      have hmain2 : MAIN_TIMELINE_ID ≠ timelineId := fun he => hne he.symm
      refine ⟨nodup_mkeys_mdel timelineId inv.tlNodup, ?_, ?_, ?_, ?_, ?_, ?_, ?_⟩
      · rw [hpf]
        exact nodup_mkeys_filter _ inv.cpNodup
      · rw [mhas_mdel_ne hmain2]
        exact inv.mainMem
      · by_cases hcur : s.currentTimelineId = timelineId
        · rw [if_pos hcur, mhas_mdel_ne hmain2]
          exact inv.mainMem
        · rw [if_neg hcur, mhas_mdel_ne hcur]
          exact inv.curMem
      · intro p hp
        exact inv.tlKeyId p (mem_mdel hp).1
      · intro p hp
        rw [hpf] at hp
        exact inv.cpKeyId p (List.mem_filter.mp hp).1
      · intro p hp
        exact inv.rootIff p (mem_mdel hp).1
      · intro p hp
        rw [hpf] at hp
        have hp2 := List.mem_filter.mp hp
        have hne2 : p.2.timelineId ≠ timelineId := by simpa [bne] using hp2.2
        rw [mhas_mdel_ne hne2]
        exact inv.cpTlMem p hp2.1

/-- The initial state satisfies the invariant. -/
theorem initial_inv (now : Nat) : StoreInv (createInitialState now) := by
  refine ⟨?_, ?_, ?_, ?_, ?_, ?_, ?_, ?_⟩ <;>
    simp [createInitialState, mkeys, mhas, mget, MAIN_TIMELINE_ID]

/-- Every reachable state satisfies the invariant. -/
theorem reachable_inv {s : MockChainState} (h : Reachable s) : StoreInv s := by
  obtain ⟨now, h⟩ := h
  induction h with
  | refl => exact initial_inv now
  | tail h1 h2 ih => exact step_inv h2 ih

/-- None of the buffer-mutating operations touches the checkpoints map. -/
theorem bufStep_checkpoints {s s2 : MockChainState} (h : BufStep s s2) :
    s2.checkpoints = s.checkpoints := by
  cases h with
  | capture pair => rfl
  | clearCaptures => rfl
  | restoreCheckpoint checkpointId st2 h =>
      rcases restoreCheckpoint_ok h with ⟨checkpoint, hcp, hs2⟩
      rw [hs2]
  | createBranch options newId now st2 t h =>
      rcases createBranch_ok h with ⟨captures, hseed, ht, hs2⟩
      rw [hs2]
  | switchTimeline timelineId st2 h =>
      rcases switchTimeline_ok h with ⟨hhas, hs2⟩
      rw [hs2]

/-- A sequence of buffer-mutating operations leaves the checkpoints map
unchanged. -/
theorem bufSteps_checkpoints {s s2 : MockChainState}
    (h : Relation.ReflTransGen BufStep s s2) : s2.checkpoints = s.checkpoints := by
  induction h with
  | refl => rfl
  | tail h1 h2 ih => rw [bufStep_checkpoints h2, ih]

theorem keys_filter_key {α : Type} (m : EntryList α) (k : String) :
    (m.filter (fun p => p.1 == k)).map (·.1) = (mkeys m).filter (fun x => x == k) := by
  induction m with
  | nil => rfl
  | cons p t ih =>
      by_cases h : p.1 = k
      · simp [List.filter_cons, h, mkeys, ih]
      · simp [List.filter_cons, h, mkeys] at ih ⊢
        simpa [mkeys] using ih

theorem nodup_filter_eq_single {l : List String} {k : String}
    (h : l.Nodup) (hk : k ∈ l) : l.filter (fun x => x == k) = [k] := by
  induction l with
  | nil => simp at hk
  | cons a t ih =>
      have hcons := List.nodup_cons.mp h
      by_cases ha : a = k
      · subst ha
        have hnone : t.filter (fun x => x == a) = [] := by
          apply List.filter_eq_nil_iff.mpr
          intro x hx
          intro hxa
          exact hcons.1 ((eq_of_beq hxa) ▸ hx)
        simp [List.filter_cons, hnone]
      · have hkt : k ∈ t := by
          rcases List.mem_cons.mp hk with h1 | h1
          · exact absurd h1.symm ha
          · exact h1
        have hab : (a == k) = false := by simpa using ha
        simp [List.filter_cons, hab]
        exact ih hcons.2 hkt

/-- C1: in every state reachable from a fresh store by any sequence of store
operations, `currentTimelineId` is a key of the timelines map, and therefore
`getCurrentTimeline` succeeds (never hits its fatal branch). -/
theorem C1_current_timeline_valid (s : MockChainState) (h : Reachable s) :
    mhas s.timelines s.currentTimelineId = true ∧
    Store.getCurrentTimeline s ≠ none := by
  have inv := reachable_inv h
  refine ⟨inv.curMem, ?_⟩
  intro hnone
  have hc := inv.curMem
  unfold mhas at hc
  unfold Store.getCurrentTimeline at hnone
  rw [hnone] at hc
  exact Bool.noConfusion hc

/-- C1 witness: the property evaluated at the freshly initialized store. -/
theorem C1_witness :
    mhas (createInitialState 0).timelines (createInitialState 0).currentTimelineId = true ∧
    Store.getCurrentTimeline (createInitialState 0) ≠ none :=
  C1_current_timeline_valid (createInitialState 0) ⟨0, Relation.ReflTransGen.refl⟩

/-- C2: once `createCheckpoint` has returned a checkpoint, its captures are
the live buffer at creation time, and any later sequence of buffer-mutating
operations (capture, clearCaptures, restoreCheckpoint, createBranch,
switchTimeline) leaves the checkpoint readable through `getCheckpoint` with
the very same capture list. -/
theorem C2_checkpoint_immutable
    (s : MockChainState) (options : CheckpointOptions) (newId : String)
    (now : Nat) (s1 : MockChainState) (c : Checkpoint)
    (hcreate : Store.createCheckpoint s options newId now = (s1, c))
    (s2 : MockChainState) (hsteps : Relation.ReflTransGen BufStep s1 s2) :
    Store.getCheckpoint s2 c.id = some c ∧ c.captures = s.currentCaptures := by
  have h1 := congrArg Prod.fst hcreate
  have h2 := congrArg Prod.snd hcreate
  simp only [Store.createCheckpoint] at h1 h2
  have hck : s2.checkpoints = s1.checkpoints := bufSteps_checkpoints hsteps
  constructor
  · unfold Store.getCheckpoint
    rw [hck, ← h1]
    simp only [← h2]
    exact mget_mset_self _ _ _
  · rw [← h2]

/-- C2 witness: a concrete checkpoint created on a fresh store survives a
later `capture` unchanged. -/
theorem C2_witness :
    Store.getCheckpoint
        (Store.capture
          (Store.createCheckpoint (createInitialState 0)
            { name := "cp1", description := none } "c1" 1).1 samplePair)
        (Store.createCheckpoint (createInitialState 0)
            { name := "cp1", description := none } "c1" 1).2.id
      = some (Store.createCheckpoint (createInitialState 0)
            { name := "cp1", description := none } "c1" 1).2 ∧
    (Store.createCheckpoint (createInitialState 0)
        { name := "cp1", description := none } "c1" 1).2.captures
      = (createInitialState 0).currentCaptures :=
  C2_checkpoint_immutable (createInitialState 0)
    { name := "cp1", description := none } "c1" 1 _ _ rfl _
    (Relation.ReflTransGen.single (BufStep.capture _ samplePair))

/-- C3: in every reachable state exactly one timeline entry has a null
`parentId` and it is keyed by the main timeline id; moreover every timeline
returned by `createBranch` has a non-null `parentId`, and `deleteTimeline`
rejects the main timeline id. -/
theorem C3_unique_root (s : MockChainState) (h : Reachable s) :
    (s.timelines.filter (fun p => p.2.parentId.isNone)).map (·.1)
        = [MAIN_TIMELINE_ID] ∧
    (∀ options newId now s2 t,
        Store.createBranch s options newId now = .ok (s2, t) →
        t.parentId ≠ none) ∧
    Store.deleteTimeline s MAIN_TIMELINE_ID = .error .cannotDeleteMain := by
  have inv := reachable_inv h
  refine ⟨?_, ?_, ?_⟩
  · have hcongr : s.timelines.filter (fun p => p.2.parentId.isNone)
        = s.timelines.filter (fun p => p.1 == MAIN_TIMELINE_ID) := by
      apply List.filter_congr
      intro p hp
      have hiff := inv.rootIff p hp
      by_cases hmain : p.1 = MAIN_TIMELINE_ID
      · have : p.2.parentId = none := hiff.mpr hmain
        simp [this, hmain]
      · have : p.2.parentId ≠ none := fun he => hmain (hiff.mp he)
        cases hpar : p.2.parentId with
        | none => exact absurd hpar this
        | some q => simp [hpar, hmain]
    rw [hcongr, keys_filter_key]
    apply nodup_filter_eq_single inv.tlNodup
    have := inv.mainMem
    unfold mhas at this
    cases hmg : mget s.timelines MAIN_TIMELINE_ID with
    | none => rw [hmg] at this; exact Bool.noConfusion this
    | some t =>
        have hmem := mget_mem hmg
        exact List.mem_map_of_mem (·.1) hmem
  · intro options newId now s2 t hok
    rcases createBranch_ok hok with ⟨captures, hseed, ht, hs2⟩
    rw [ht]
    simp
  · simp [Store.deleteTimeline]

/-- C3 witness: the unique-root property and the protected main timeline,
evaluated at the freshly initialized store. -/
theorem C3_witness :
    ((createInitialState 0).timelines.filter (fun p => p.2.parentId.isNone)).map (·.1)
        = [MAIN_TIMELINE_ID] ∧
    Store.deleteTimeline (createInitialState 0) MAIN_TIMELINE_ID
        = .error .cannotDeleteMain :=
  ⟨(C3_unique_root (createInitialState 0) ⟨0, Relation.ReflTransGen.refl⟩).1,
   (C3_unique_root (createInitialState 0) ⟨0, Relation.ReflTransGen.refl⟩).2.2⟩

/-- C4: `restoreCheckpoint` fails with the not-found error exactly when the
id is not a key of the checkpoints map; on success the current timeline
becomes the checkpoint timeline and the live buffer becomes the checkpoint
captures, with the timelines and checkpoints maps unchanged; and the
literal scenario capture pairA, checkpoint, capture pairB, capture pairC,
restore leaves the live buffer at exactly the single pair pairA. -/
theorem C4_restoreCheckpoint_spec (s : MockChainState) (checkpointId : String) :
    (Store.restoreCheckpoint s checkpointId
        = .error (.checkpointNotFound checkpointId)
      ↔ mget s.checkpoints checkpointId = none) ∧
    (∀ c, mget s.checkpoints checkpointId = some c →
        Store.restoreCheckpoint s checkpointId
          = .ok { s with
                    currentTimelineId := c.timelineId
                    currentCaptures := c.captures }) ∧
    (∀ c s2, mget s.checkpoints checkpointId = some c →
        Store.restoreCheckpoint s checkpointId = .ok s2 →
        s2.currentTimelineId = c.timelineId ∧
        s2.currentCaptures = c.captures ∧
        s2.timelines = s.timelines ∧ s2.checkpoints = s.checkpoints) ∧
    (∀ pairA pairB pairC options newId now, s.currentCaptures = [] →
        ∃ s5, Store.restoreCheckpoint
            (Store.capture (Store.capture
              (Store.createCheckpoint (Store.capture s pairA) options newId now).1
              pairB) pairC)
            (Store.createCheckpoint (Store.capture s pairA) options newId now).2.id
          = .ok s5 ∧ Store.getCaptures s5 = [pairA]) := by
  refine ⟨?_, ?_, ?_, ?_⟩
  · constructor
    · intro herr
      cases hmg : mget s.checkpoints checkpointId with
      | none => rfl
      | some c => simp [Store.restoreCheckpoint, hmg] at herr
    · intro hmg
      simp [Store.restoreCheckpoint, hmg]
  · intro c hmg
    simp [Store.restoreCheckpoint, hmg]
  · intro c s2 hmg hok
    rcases restoreCheckpoint_ok hok with ⟨c2, hmg2, hs2⟩
    rw [hmg] at hmg2
    have hc : c2 = c := by
      injection hmg2.symm
    subst hc
    rw [hs2]
    exact ⟨rfl, rfl, rfl, rfl⟩
  · intro pairA pairB pairC options newId now hemp
    have hget : mget (Store.capture (Store.capture
          (Store.createCheckpoint (Store.capture s pairA) options newId now).1
          pairB) pairC).checkpoints
          (Store.createCheckpoint (Store.capture s pairA) options newId now).2.id
        = some (Store.createCheckpoint (Store.capture s pairA) options newId now).2 :=
      mget_mset_self _ _ _
    refine ⟨{ Store.capture (Store.capture
          (Store.createCheckpoint (Store.capture s pairA) options newId now).1
          pairB) pairC with
        currentTimelineId :=
          (Store.createCheckpoint (Store.capture s pairA) options newId now).2.timelineId
        currentCaptures :=
          (Store.createCheckpoint (Store.capture s pairA) options newId now).2.captures },
      ?_, ?_⟩
    · unfold Store.restoreCheckpoint
      rw [hget]
    · show (Store.createCheckpoint (Store.capture s pairA) options newId now).2.captures
          = [pairA]
      show s.currentCaptures ++ [pairA] = [pairA]
      rw [hemp]
      rfl

/-- C4 witness: the not-found direction and the literal scenario, evaluated
on the freshly initialized store with concrete pairs. -/
theorem C4_witness :
    Store.restoreCheckpoint (createInitialState 0) "missing"
        = .error (.checkpointNotFound "missing") ∧
    (∃ s5, Store.restoreCheckpoint
        (Store.capture (Store.capture
          (Store.createCheckpoint (Store.capture (createInitialState 0) samplePair)
            { name := "cp1", description := none } "c1" 1).1 samplePair) samplePair)
        (Store.createCheckpoint (Store.capture (createInitialState 0) samplePair)
            { name := "cp1", description := none } "c1" 1).2.id
      = .ok s5 ∧ Store.getCaptures s5 = [samplePair]) :=
  ⟨(C4_restoreCheckpoint_spec (createInitialState 0) "missing").1.mpr rfl,
   (C4_restoreCheckpoint_spec (createInitialState 0) "missing").2.2.2
     samplePair samplePair samplePair { name := "cp1", description := none }
     "c1" 1 rfl⟩

/-- C6: `switchTimeline` fails with the not-found error exactly when the id
is not a key of the timelines map (the state is unchanged on error, which
the `Except` embedding makes intrinsic); on success the current timeline
becomes the given id and the live buffer is cleared, with the timelines and
checkpoints maps unchanged. -/
theorem C6_switchTimeline_spec (s : MockChainState) (timelineId : String) :
    (Store.switchTimeline s timelineId = .error (.timelineNotFound timelineId)
      ↔ mhas s.timelines timelineId = false) ∧
    (mhas s.timelines timelineId = true →
        Store.switchTimeline s timelineId
          = .ok { s with currentTimelineId := timelineId, currentCaptures := [] }) ∧
    (∀ s2, Store.switchTimeline s timelineId = .ok s2 →
        s2.currentTimelineId = timelineId ∧ s2.currentCaptures = [] ∧
        s2.timelines = s.timelines ∧ s2.checkpoints = s.checkpoints) := by
  refine ⟨?_, ?_, ?_⟩
  · constructor
    · intro herr
      by_cases hhas : mhas s.timelines timelineId
      · simp [Store.switchTimeline, hhas] at herr
      · simpa using hhas
    · intro hhas
      simp [Store.switchTimeline, hhas]
  · intro hhas
    simp [Store.switchTimeline, hhas]
  · intro s2 hok
    rcases switchTimeline_ok hok with ⟨hhas, hs2⟩
    rw [hs2]
    exact ⟨rfl, rfl, rfl, rfl⟩

/-- C6 witness: switching the sample store (whose buffer is nonempty) to
`main` clears the buffer; switching to an unknown id is the not-found
error. -/
theorem C6_witness :
    (Store.switchTimeline sampleState "nope"
      = .error (.timelineNotFound "nope")) ∧
    (∃ s2, Store.switchTimeline sampleState "main" = .ok s2 ∧
      s2.currentTimelineId = "main" ∧ s2.currentCaptures = [] ∧
      s2.timelines = sampleState.timelines ∧
      s2.checkpoints = sampleState.checkpoints) := by
  constructor
  · exact (C6_switchTimeline_spec sampleState "nope").1.mpr (by decide)
  · have hok := (C6_switchTimeline_spec sampleState "main").2.1 (by decide)
    exact ⟨_, hok, (C6_switchTimeline_spec sampleState "main").2.2 _ hok⟩

/-- C5 counterexample: on a fresh store (empty checkpoints map), calling
`createBranch` with the explicit `fromCheckpointId` value `""` — which is
given, and is not a key of the checkpoints map — does NOT produce the
claimed not-found error.  The source guard `if (options.fromCheckpointId)`
is a JavaScript truthiness test, so the empty string skips the checkpoint
lookup: the branch is created successfully, seeded from the live buffer,
while `branchedFromCheckpointId` still records the empty string. -/
theorem C5_counterexample :
    mget (createInitialState 0).checkpoints "" = none ∧
    Store.createBranch (createInitialState 0)
        { name := "b", fromCheckpointId := some "" } "t1" 1
      = .ok
        ({ currentTimelineId := "t1"
           timelines :=
             [(MAIN_TIMELINE_ID,
               { id := MAIN_TIMELINE_ID, name := "Main", parentId := none,
                 branchedFromCheckpointId := none, createdAt := 0 }),
              ("t1",
               { id := "t1", name := "b", parentId := some MAIN_TIMELINE_ID,
                 branchedFromCheckpointId := some "", createdAt := 1 })]
           checkpoints := []
           currentCaptures := [] },
         { id := "t1", name := "b", parentId := some MAIN_TIMELINE_ID,
           branchedFromCheckpointId := some "", createdAt := 1 }) :=
  ⟨rfl, rfl⟩

/-- C5 (amended): `createBranch` fails with a not-found error exactly when
`fromCheckpointId` is given, non-empty, and not a key of the checkpoints
map; on success the created timeline has `parentId` equal to the previous
current timeline id, `branchedFromCheckpointId` equal to the given
`fromCheckpointId` (or null), the buffer is seeded from the named
checkpoint when `fromCheckpointId` is given and non-empty, and from the
previous live buffer otherwise (including the empty-string case), and the
new timeline becomes current. -/
theorem C5_createBranch_spec (s : MockChainState) (options : BranchOptions)
    (newId : String) (now : Nat) :
    (∀ e, Store.createBranch s options newId now = .error e →
        ∃ cid, options.fromCheckpointId = some cid ∧ cid ≠ "" ∧
          mget s.checkpoints cid = none ∧ e = .checkpointNotFound cid) ∧
    (∀ cid, options.fromCheckpointId = some cid → cid ≠ "" →
        mget s.checkpoints cid = none →
        Store.createBranch s options newId now
          = .error (.checkpointNotFound cid)) ∧
    (∀ s2 t, Store.createBranch s options newId now = .ok (s2, t) →
        t.parentId = some s.currentTimelineId ∧
        t.branchedFromCheckpointId = options.fromCheckpointId ∧
        t.id = newId ∧ t.name = options.name ∧
        s2.currentTimelineId = t.id ∧
        s2.timelines = mset s.timelines t.id t ∧
        s2.checkpoints = s.checkpoints ∧
        (∀ cid c, options.fromCheckpointId = some cid → cid ≠ "" →
            mget s.checkpoints cid = some c →
            s2.currentCaptures = c.captures) ∧
        ((options.fromCheckpointId = none ∨ options.fromCheckpointId = some "") →
            s2.currentCaptures = s.currentCaptures)) := by
  refine ⟨?_, ?_, ?_⟩
  · intro e herr
    have hseed : Store.branchSeed s options = .error e := by
      cases hs : Store.branchSeed s options with
      | error e2 =>
          simp [Store.createBranch, hs, Except.map] at herr
          rw [herr]
      | ok cap => simp [Store.createBranch, hs, Except.map] at herr
    unfold Store.branchSeed at hseed
    cases hfc : options.fromCheckpointId with
    | none => simp only [hfc] at hseed; simp at hseed
    | some cid =>
        simp only [hfc] at hseed
        by_cases hcid : cid = ""
        · rw [if_pos hcid] at hseed; simp at hseed
        · rw [if_neg hcid] at hseed
          cases hmg : mget s.checkpoints cid with
          | none =>
              simp only [hmg] at hseed
              refine ⟨cid, rfl, hcid, hmg, ?_⟩
              injection hseed with he
              exact he.symm
          | some c => simp only [hmg] at hseed; simp at hseed
  · intro cid hfc hcid hmg
    simp [Store.createBranch, Store.branchSeed, hfc, hcid, hmg, Except.map]
  · intro s2 t hok
    rcases createBranch_ok hok with ⟨captures, hseed, ht, hs2⟩
    subst hs2
    refine ⟨by rw [ht], by rw [ht], by rw [ht], by rw [ht], by rw [ht], ?_, rfl,
      ?_, ?_⟩
    · show mset s.timelines newId t = mset s.timelines t.id t
      rw [ht]
    · intro cid c hfc hcid hmg
      unfold Store.branchSeed at hseed
      simp only [hfc] at hseed
      rw [if_neg hcid] at hseed
      simp only [hmg] at hseed
      show captures = c.captures
      injection hseed with he
      exact he.symm
    · intro hcase
      unfold Store.branchSeed at hseed
      show captures = s.currentCaptures
      rcases hcase with hfc | hfc
      · simp only [hfc] at hseed
        injection hseed with he
        exact he.symm
      · simp only [hfc, if_pos] at hseed
        injection hseed with he
        exact he.symm

/-- C5 witness: a concrete failing lookup with a non-empty unknown id, and
a concrete successful branch of `sampleState` from checkpoint `c1`. -/
theorem C5_witness :
    Store.createBranch sampleState { name := "nf", fromCheckpointId := some "zz" }
        "t9" 9 = .error (.checkpointNotFound "zz") ∧
    tlBranch3.parentId = some sampleState.currentTimelineId ∧
    sampleBranched.currentCaptures = cpT1.captures := by
  have h3 := (C5_createBranch_spec sampleState
      { name := "b3", fromCheckpointId := some "c1" } "t3" 3).2.2
      sampleBranched tlBranch3 (by rfl)
  refine ⟨?_, h3.1, ?_⟩
  · exact (C5_createBranch_spec sampleState
      { name := "nf", fromCheckpointId := some "zz" } "t9" 9).2.1 "zz" rfl
      (by decide) (by rfl)
  · exact h3.2.2.2.2.2.2.2.1 "c1" cpT1 rfl (by decide) (by rfl)

/-- C7: `deleteTimeline` rejects the main timeline id with the protected
error, rejects unknown ids with the not-found error (the `Except`
embedding makes the no-state-change intrinsic), and on success removes the
timeline, removes exactly the checkpoints belonging to it, switches the
current timeline to main with a cleared buffer when the deleted timeline
was current, and leaves the current timeline and buffer untouched
otherwise. -/
theorem C7_deleteTimeline_spec (s : MockChainState) (timelineId : String)
    (hnodup : (mkeys s.checkpoints).Nodup) :
    (timelineId = MAIN_TIMELINE_ID →
        Store.deleteTimeline s timelineId = .error .cannotDeleteMain) ∧
    (timelineId ≠ MAIN_TIMELINE_ID → mhas s.timelines timelineId = false →
        Store.deleteTimeline s timelineId
          = .error (.timelineNotFound timelineId)) ∧
    (timelineId ≠ MAIN_TIMELINE_ID → mhas s.timelines timelineId = true →
        ∃ s2, Store.deleteTimeline s timelineId = .ok s2) ∧
    (∀ s2, Store.deleteTimeline s timelineId = .ok s2 →
        s2.timelines = mdel s.timelines timelineId ∧
        s2.checkpoints
          = s.checkpoints.filter (fun p => p.2.timelineId != timelineId) ∧
        (s.currentTimelineId = timelineId →
            s2.currentTimelineId = MAIN_TIMELINE_ID ∧ s2.currentCaptures = []) ∧
        (s.currentTimelineId ≠ timelineId →
            s2.currentTimelineId = s.currentTimelineId ∧
            s2.currentCaptures = s.currentCaptures)) := by
  refine ⟨?_, ?_, ?_, ?_⟩
  · intro hmain
    subst hmain
    simp [Store.deleteTimeline]
  · intro h1 h2
    simp [Store.deleteTimeline, h1, h2]
  · intro h1 h2
    cases hres : Store.deleteTimeline s timelineId with
    | error e => simp [Store.deleteTimeline, h1, h2] at hres
    | ok s2 => exact ⟨s2, rfl⟩
  · intro s2 hok
    rcases deleteTimeline_ok hok with ⟨hne, hhas, hs2⟩
    subst hs2
    refine ⟨rfl, purgeCheckpoints_eq_filter s.checkpoints timelineId hnodup,
      ?_, ?_⟩
    · intro hcur
      constructor
      · show (if s.currentTimelineId = timelineId then MAIN_TIMELINE_ID
          else s.currentTimelineId) = MAIN_TIMELINE_ID
        rw [if_pos hcur]
      · show (if s.currentTimelineId = timelineId then ([] : List CapturedPair)
          else s.currentCaptures) = []
        rw [if_pos hcur]
    · intro hcur
      constructor
      · show (if s.currentTimelineId = timelineId then MAIN_TIMELINE_ID
          else s.currentTimelineId) = s.currentTimelineId
        rw [if_neg hcur]
      · show (if s.currentTimelineId = timelineId then ([] : List CapturedPair)
          else s.currentCaptures) = s.currentCaptures
        rw [if_neg hcur]

/-- C7 witness: deleting the current branch `t1` of the sample store removes
the timeline and exactly its checkpoint, and falls back to main with a
cleared buffer. -/
theorem C7_witness :
    sampleDeleted.timelines = mdel sampleState.timelines "t1" ∧
    sampleDeleted.checkpoints
      = sampleState.checkpoints.filter (fun p => p.2.timelineId != "t1") ∧
    sampleDeleted.currentTimelineId = MAIN_TIMELINE_ID ∧
    sampleDeleted.currentCaptures = [] := by
  have h := (C7_deleteTimeline_spec sampleState "t1" (by decide)).2.2.2
      sampleDeleted (by rfl)
  exact ⟨h.1, h.2.1, (h.2.2.1 rfl).1, (h.2.2.1 rfl).2⟩

/-- C10: a successful `deleteTimeline` removes only the entry keyed by the
deleted id from the timelines map; every other timeline entry — including
any child branch whose `parentId` names the deleted timeline — survives
unchanged, so deletion does not cascade to child branches. -/
theorem C10_deleteTimeline_frame (s : MockChainState) (timelineId : String)
    (s2 : MockChainState)
    (h : Store.deleteTimeline s timelineId = .ok s2) :
    s2.timelines = mdel s.timelines timelineId ∧
    mget s2.timelines timelineId = none ∧
    (∀ k, k ≠ timelineId → mget s2.timelines k = mget s.timelines k) ∧
    (∀ p ∈ s.timelines, p.1 ≠ timelineId → p ∈ s2.timelines) := by
  rcases deleteTimeline_ok h with ⟨hne, hhas, hs2⟩
  subst hs2
  refine ⟨rfl, mget_mdel_self _ _, ?_, ?_⟩
  · intro k hk
    exact mget_mdel_ne hk
  · intro p hp hpk
    show p ∈ mdel s.timelines timelineId
    rw [mdel_eq_filter]
    exact List.mem_filter.mpr ⟨hp, by simpa [bne] using hpk⟩

/-- C10 witness: deleting `t1` from the sample store leaves its child `t2`
present and unchanged, with a `parentId` that no longer resolves. -/
theorem C10_witness :
    mget sampleDeleted.timelines "t1" = none ∧
    mget sampleDeleted.timelines "t2" = mget sampleState.timelines "t2" ∧
    mget sampleDeleted.timelines "t2" = some tlBranch2 ∧
    tlBranch2.parentId = some "t1" := by
  have h := C10_deleteTimeline_frame sampleState "t1" sampleDeleted (by rfl)
  exact ⟨h.2.1, h.2.2.1 "t2" (by decide), by decide, by decide⟩

/-- C8: `deserializeState` inverts `serializeState` on every state whose
maps have the unique keys every real `Map` guarantees, and `serializeState`
is literally the ordered pair-list representation of the state. -/
theorem C8_serialize_roundtrip (s : MockChainState)
    (h1 : (mkeys s.timelines).Nodup) (h2 : (mkeys s.checkpoints).Nodup) :
    deserializeState (serializeState s) = s ∧
    serializeState s
      = { currentTimelineId := s.currentTimelineId
          timelines := s.timelines
          checkpoints := s.checkpoints
          currentCaptures := s.currentCaptures } := by
  constructor
  · show MockChainState.mk s.currentTimelineId (mofEntries s.timelines)
        (mofEntries s.checkpoints) s.currentCaptures = s
    rw [mofEntries_eq_self h1, mofEntries_eq_self h2]
  · rfl

/-- C8 witness: the round trip evaluated on the concrete sample state. -/
theorem C8_witness :
    deserializeState (serializeState sampleState) = sampleState :=
  (C8_serialize_roundtrip sampleState (by decide) (by decide)).1

theorem rekey_eq {α : Type} (f : α → String) (m : EntryList α)
    (h : ∀ p ∈ m, f p.2 = p.1) :
    (m.map (·.2)).map (fun v => (f v, v)) = m := by
  induction m with
  | nil => rfl
  | cons p t ih =>
      simp only [List.map_cons]
      have hp := h p (List.mem_cons_self p t)
      have ht := ih (fun q hq => h q (List.mem_cons_of_mem p hq))
      rw [ht, hp]

/-- C9: for every reachable state, exporting it and importing the document
with the replace strategy into a freshly constructed store reproduces the
same timelines map, the same checkpoints map, and the same live buffer as
the exporting store had at export time. -/
theorem C9_export_import_roundtrip (s : MockChainState) (h : Reachable s)
    (exportedAt : String) (m now : Nat) :
    (importStateReplace (createInitialState m) (exportState s exportedAt) now).timelines
        = s.timelines ∧
    (importStateReplace (createInitialState m) (exportState s exportedAt) now).checkpoints
        = s.checkpoints ∧
    (importStateReplace (createInitialState m) (exportState s exportedAt) now).currentCaptures
        = s.currentCaptures := by
  have inv := reachable_inv h
  have htl : mofEntries
      ((exportState s exportedAt).timelines.map (fun t => (t.id, t)))
        = s.timelines := by
    show mofEntries ((s.timelines.map (·.2)).map (fun t => (t.id, t)))
        = s.timelines
    rw [rekey_eq (fun t => t.id) s.timelines inv.tlKeyId]
    exact mofEntries_eq_self inv.tlNodup
  have hcp : mofEntries
      ((exportState s exportedAt).checkpoints.map (fun c => (c.id, c)))
        = s.checkpoints := by
    show mofEntries ((s.checkpoints.map (·.2)).map (fun c => (c.id, c)))
        = s.checkpoints
    rw [rekey_eq (fun c => c.id) s.checkpoints inv.cpKeyId]
    exact mofEntries_eq_self inv.cpNodup
  refine ⟨?_, ?_, rfl⟩
  · show (if mhas (mofEntries
        ((exportState s exportedAt).timelines.map (fun t => (t.id, t))))
          MAIN_TIMELINE_ID
      then mofEntries
        ((exportState s exportedAt).timelines.map (fun t => (t.id, t)))
      else mset (mofEntries
        ((exportState s exportedAt).timelines.map (fun t => (t.id, t))))
        MAIN_TIMELINE_ID (synthesizedMain now)) = s.timelines
    rw [htl]
    simp [inv.mainMem]
  · exact hcp

/-- C9 witness: the round trip evaluated at the freshly initialized
store. -/
theorem C9_witness :
    (importStateReplace (createInitialState 1)
        (exportState (createInitialState 0) "2026-01-01") 2).timelines
      = (createInitialState 0).timelines ∧
    (importStateReplace (createInitialState 1)
        (exportState (createInitialState 0) "2026-01-01") 2).checkpoints
      = (createInitialState 0).checkpoints ∧
    (importStateReplace (createInitialState 1)
        (exportState (createInitialState 0) "2026-01-01") 2).currentCaptures
      = (createInitialState 0).currentCaptures :=
  C9_export_import_roundtrip (createInitialState 0)
    ⟨0, Relation.ReflTransGen.refl⟩ "2026-01-01" 1 2

end MockChain
